import Mathlib

/-!
Verification development for the dbdiagram-parser repository: a shallow
embedding of its two-stage front end (character-level Lexer, token-level
recursive-descent Parser) together with theorems about the embedded code.

Embedding conventions:
* The Lexer's cursor (`this.position` into `this.input`) is rendered as
  consumption from the front of a `List Char`; the code only ever reads
  `input[position]` and increments `position`, so the remaining suffix is the
  whole state.  The scan loop is driven by a fuel parameter strictly larger
  than the remaining input length (every iteration of the source loop
  consumes at least one character, so such fuel can never run out).
* The Parser's cursor (`this.position` into `this.tokens`) is likewise a
  suffix of a `List Token`; its two unbounded loops (the table-body member
  loop and the top-level table loop) also carry fuel exceeding the remaining
  token count.
* JavaScript `throw` becomes `Except.error` carrying the exact message
  string the source builds, with `undefined` interpolating to the text
  "undefined" as in JS template literals.
-/

namespace DBAL

/-! ### Data model: src/interfaces/Token.ts -/

/-- Token vocabulary, exactly the eight string alternatives of `TokenType`. -/
inductive TokenType where
  | KEYWORD
  | IDENTIFIER
  | STRING
  | SYMBOL
  | NUMBER
  | WHITESPACE
  | COMMENT
  | ERROR
deriving DecidableEq, Repr

/-- Rendering of a `TokenType` as the string the source code stores and
interpolates into error messages. -/
def typeName : TokenType → String
  | .KEYWORD => "KEYWORD"
  | .IDENTIFIER => "IDENTIFIER"
  | .STRING => "STRING"
  | .SYMBOL => "SYMBOL"
  | .NUMBER => "NUMBER"
  | .WHITESPACE => "WHITESPACE"
  | .COMMENT => "COMMENT"
  | .ERROR => "ERROR"

/-- A token: `{ type: TokenType; value: string }`. -/
structure Token where
  type : TokenType
  value : String
deriving DecidableEq, Repr

/-! ### Data model: src/interfaces/AST.ts

The TS interfaces carry a constant discriminant field (`type: "Table"`,
`type: "Column"`); being a type-level literal it is omitted here. -/

/-- A column node: name, data type, raw constraint strings, optional note. -/
structure ColumnNode where
  name : String
  dataType : String
  constraints : List String
  note : Option String
deriving DecidableEq, Repr

/-- A table node: name, columns in declaration order, optional note. -/
structure TableNode where
  name : String
  columns : List ColumnNode
  note : Option String
deriving DecidableEq, Repr

/-- The AST root: `{ tables: TableNode[] }`. -/
structure AST where
  tables : List TableNode
deriving DecidableEq, Repr

/-! ### Lexer: src/Lexer.ts -/

/-- Characters matched by the JavaScript regex `\s` (the source's
`isWhitespace` tests `/\s/.test(char)`). -/
def jsWhitespace : List Char :=
  [' ', '\t', '\n', '\r', '\x0b', '\x0c',
   ' ', ' ', ' ', ' ', ' ', ' ', ' ',
   ' ', ' ', ' ', ' ', ' ', ' ',
   ' ', ' ', ' ', ' ', '　', '﻿']

/-- `Lexer.isWhitespace`: `/\s/.test(char)`. -/
def isWhitespace (c : Char) : Bool :=
  jsWhitespace.contains c

/-- `Lexer.isLetter`: `/^[a-zA-Z]$/.test(char)`. -/
def isLetter (c : Char) : Bool :=
  ('a' ≤ c && c ≤ 'z') || ('A' ≤ c && c ≤ 'Z')

/-- `Lexer.isDigit`: `/^[0-9]$/.test(char)`. -/
def isDigit (c : Char) : Bool :=
  '0' ≤ c && c ≤ '9'

/-- `Lexer.isIdentifierChar`: letter, digit, or `.`. -/
def isIdentifierChar (c : Char) : Bool :=
  isLetter c || isDigit c || c == '.'

/-- The keyword list of `tokenizeIdentifierOrKeyword` (the source lists
`"bool"` twice; the duplicate is kept for fidelity, it does not change
membership). -/
def keywords : List String :=
  ["Table", "Note", "ref", "not", "null", "unique", "default",
   "bool", "string", "int", "float", "bool"]

/-- The structural characters of the `"{}[]:,<>".includes(char)` test. -/
def symbolChars : List Char :=
  ['\x7b', '\x7d', '[', ']', ':', ',', '<', '>']

/-- `Lexer.tokenize`: one forward scan over the remaining characters.  Each
branch mirrors one alternative of the source's `while` loop:
whitespace run, identifier/keyword run, quoted string, single symbol
character, otherwise the fatal `Unexpected character` error.  `fuel` bounds
the number of loop iterations; every iteration consumes at least one
character, so any fuel exceeding the input length behaves like the
unbounded source loop. -/
def tokenizeAux : Nat → List Char → Except String (List Token)
  | _, [] => .ok []
  | 0, _ :: _ => .error "lexer out of fuel"
  | fuel + 1, c :: cs =>
    if isWhitespace c then
      (tokenizeAux fuel ((c :: cs).dropWhile isWhitespace)).map
        (fun ts => ⟨.WHITESPACE, ((c :: cs).takeWhile isWhitespace).asString⟩ :: ts)
    else if isLetter c then
      (tokenizeAux fuel ((c :: cs).dropWhile isIdentifierChar)).map
        (fun ts =>
          ⟨if keywords.contains ((c :: cs).takeWhile isIdentifierChar).asString
              then TokenType.KEYWORD else TokenType.IDENTIFIER,
            ((c :: cs).takeWhile isIdentifierChar).asString⟩ :: ts)
    else if c == '\'' || c == '"' then
      (tokenizeAux fuel ((cs.dropWhile (fun x => x != c)).drop 1)).map
        (fun ts => ⟨.STRING, (cs.takeWhile (fun x => x != c)).asString⟩ :: ts)
    else if symbolChars.contains c then
      (tokenizeAux fuel cs).map (fun ts => ⟨.SYMBOL, String.singleton c⟩ :: ts)
    else
      .error ("Unexpected character: " ++ String.singleton c)

/-- `Lexer.lex` on a fresh `Lexer` built from `input` (constructor state:
`position = 0`, `tokens = []`). -/
def lex (input : String) : Except String (List Token) :=
  tokenizeAux (input.toList.length + 1) input.toList

/-! ### Parser: src/Parser.ts -/

/-- `Parser.skipWhitespace`: advance while the current token is WHITESPACE. -/
def skipWhitespace (ts : List Token) : List Token :=
  ts.dropWhile (fun t => t.type == TokenType.WHITESPACE)

/-- The literal check of `Parser.expect`'s condition
`(value && token.value !== value)`: an absent literal — or, by JS
truthiness, an empty-string literal — is not checked. -/
def litOk (v : Option String) (t : Token) : Bool :=
  match v with
  | none => true
  | some s => s == "" || t.value == s

/-- The error message template of `Parser.expect`:
`Expected ${type} '${value}', but got ${token?.type} '${token?.value}'`,
with JS rendering `undefined` as the text "undefined". -/
def expectMsg (ty : TokenType) (v : Option String) (t : Option Token) : String :=
  "Expected " ++ typeName ty ++ " '" ++ (match v with | some s => s | none => "undefined")
    ++ "', but got " ++ (match t with | some tk => typeName tk.type | none => "undefined")
    ++ " '" ++ (match t with | some tk => tk.value | none => "undefined") ++ "'"

/-- `Parser.expect(type, value?)`: skip whitespace, advance one token,
succeed only on a matching token, else throw. -/
def expect (ty : TokenType) (v : Option String) (ts : List Token) :
    Except String (Token × List Token) :=
  match skipWhitespace ts with
  | [] => .error (expectMsg ty v none)
  | t :: rest =>
    if t.type == ty && litOk v t then .ok (t, rest)
    else .error (expectMsg ty v (some t))

/-- The `while` loop of `Parser.parseConstraints`: push the raw value of
every token up to the first `]`, consuming a `,` immediately following a
pushed token as a separator.  The recursion consumes one or two tokens per
iteration, so it is structural on the token list. -/
def parseConstraintsLoop : List Token → List String → List String × List Token
  | [], acc => (acc, [])
  | t :: rest, acc =>
    if t.value == "]" then (acc, t :: rest)
    else
      match rest with
      | [] => (acc ++ [t.value], [])
      | r :: rs =>
        if r.value == "," then parseConstraintsLoop rs (acc ++ [t.value])
        else parseConstraintsLoop (r :: rs) (acc ++ [t.value])

/-- `Parser.parseConstraints(constraints)`: `[`, raw tokens with comma
separators, `]`; entries are appended to the caller-supplied accumulator. -/
def parseConstraints (ts : List Token) (constraints : List String) :
    Except String (List String × List Token) := do
  let (_, ts) ← expect .SYMBOL (some "[") ts
  let (constraints, ts) := parseConstraintsLoop ts constraints
  let (_, ts) ← expect .SYMBOL (some "]") ts
  return (constraints, ts)

/-- `Parser.parseNote`: `Note`, `:`, string literal. -/
def parseNote (ts : List Token) : Except String (String × List Token) := do
  let ts := skipWhitespace ts
  let (_, ts) ← expect .KEYWORD (some "Note") ts
  let (_, ts) ← expect .SYMBOL (some ":") ts
  let (noteToken, ts) ← expect .STRING none ts
  return (noteToken.value, ts)

/-- `Parser.parseColumn`: identifier name, keyword data type, optional
bracketed constraint list (peeked by raw value, without skipping
whitespace), optional inline note (peeked as a KEYWORD token `note`,
without skipping whitespace). -/
def parseColumn (ts : List Token) : Except String (ColumnNode × List Token) := do
  let ts := skipWhitespace ts
  let (nameToken, ts) ← expect .IDENTIFIER none ts
  let (dataTypeToken, ts) ← expect .KEYWORD none ts
  let (constraints, ts) ←
    if (ts.head?.map Token.value) = some "[" then parseConstraints ts []
    else pure ([], ts)
  let (note, ts) ←
    if (ts.head?.map Token.type) = some TokenType.KEYWORD
        ∧ (ts.head?.map Token.value) = some "note" then do
      let ts := ts.tail
      let (_, ts) ← expect .SYMBOL (some ":") ts
      let (noteToken, ts) ← expect .STRING none ts
      pure (some noteToken.value, ts)
    else pure (none, ts)
  return ({ name := nameToken.value, dataType := dataTypeToken.value,
            constraints := constraints, note := note }, ts)

/-- The member loop of `Parser.parseTable` (`while (peek && peek.value !==
"}")`): skip whitespace, then dispatch on the next token — identifier
starts a column, the `Note` keyword a table note (overwriting any earlier
one), a `[` symbol a constraint block accumulated into the same list as the
header constraints, `}` breaks, anything else throws. -/
def parseTableBodyLoop :
    Nat → List Token → List ColumnNode → Option String → List String →
    Except String (List ColumnNode × Option String × List String × List Token)
  | 0, _, _, _, _ => .error "parser out of fuel"
  | fuel + 1, ts, cols, note, cons =>
    match ts.head? with
    | none => .ok (cols, note, cons, ts)
    | some t =>
      if t.value == "\x7d" then .ok (cols, note, cons, ts)
      else
        match (skipWhitespace ts).head? with
        | some t1 =>
          if t1.type = TokenType.IDENTIFIER then do
            let (c, ts2) ← parseColumn (skipWhitespace ts)
            parseTableBodyLoop fuel ts2 (cols ++ [c]) note cons
          else if t1.type = TokenType.KEYWORD ∧ t1.value = "Note" then do
            let (n, ts2) ← parseNote (skipWhitespace ts)
            parseTableBodyLoop fuel ts2 cols (some n) cons
          else if t1.type = TokenType.SYMBOL ∧ t1.value = "[" then do
            let (cons2, ts2) ← parseConstraints (skipWhitespace ts) cons
            parseTableBodyLoop fuel ts2 cols note cons2
          else if t1.value = "\x7d" then .ok (cols, note, cons, skipWhitespace ts)
          else .error ("Unexpected token " ++ typeName t1.type ++ " '" ++ t1.value ++ "'")
        | none => .error "Unexpected token undefined 'undefined'"

/-- `Parser.parseTable`: `Table`, identifier name, optional header
constraint list (peeked by raw value after skipping whitespace), `{`, the
member loop, `}`.  The returned node is built from the name token, the
collected columns and the last note only; the `constraints` accumulator is
dropped. -/
def parseTable (ts : List Token) : Except String (TableNode × List Token) := do
  let ts := skipWhitespace ts
  let (_, ts) ← expect .KEYWORD (some "Table") ts
  let (nameToken, ts) ← expect .IDENTIFIER none ts
  let ts := skipWhitespace ts
  let (constraints, ts) ←
    if (ts.head?.map Token.value) = some "[" then parseConstraints ts []
    else pure ([], ts)
  let (_, ts) ← expect .SYMBOL (some "\x7b") ts
  let (columns, note, _, ts) ← parseTableBodyLoop (ts.length + 1) ts [] none constraints
  let (_, ts) ← expect .SYMBOL (some "\x7d") ts
  return ({ name := nameToken.value, columns := columns, note := note }, ts)

/-- The top-level loop of `Parser.parse` (`while (position <
tokens.length)`): skip whitespace, parse a table at the `Table` keyword,
stop at end of input, fail on any other token. -/
def parseLoop : Nat → List Token → List TableNode → Except String (List TableNode)
  | 0, _, _ => .error "parser out of fuel"
  | fuel + 1, ts, tables =>
    match ts with
    | [] => .ok tables
    | _ :: _ =>
      match (skipWhitespace ts).head? with
      | some t =>
        if t.type = TokenType.KEYWORD ∧ t.value = "Table" then do
          let (tbl, ts2) ← parseTable (skipWhitespace ts)
          parseLoop fuel ts2 (tables ++ [tbl])
        else .error ("Unexpected token " ++ typeName t.type ++ " '" ++ t.value ++ "'")
      | none => .ok tables

/-- `Parser.parse` on a fresh `Parser` built from `tokens` (constructor
state: `position = 0`, `ast = { tables: [] }`). -/
def parse (tokens : List Token) : Except String AST :=
  (parseLoop (tokens.length + 1) tokens []).map (fun tables => { tables := tables })

/-- The pipeline the repository's entry point runs:
`new Parser(new Lexer(input).lex()).parse()`. -/
def run (input : String) : Except String AST := do
  parse (← lex input)

/-! ### Helper lemmas -/

/-- Reduction of `Except` bind on a success value. -/
theorem exceptBind_ok {α β : Type} (a : α) (f : α → Except String β) :
    (Except.ok a >>= f) = f a := rfl

/-- Reduction of `Except` bind on an error value. -/
theorem exceptBind_error {α β : Type} (e : String) (f : α → Except String β) :
    ((Except.error e : Except String α) >>= f) = Except.error e := rfl

/-- Reduction of `Except.map` on a success value. -/
theorem exceptMap_ok {α β : Type} (a : α) (f : α → β) :
    (Except.ok a : Except String α).map f = Except.ok (f a) := rfl

/-- Reduction of `Except.map` on an error value. -/
theorem exceptMap_error {α β : Type} (e : String) (f : α → β) :
    (Except.error e : Except String α).map f = Except.error e := rfl

/-- Reduction of the functor map on a success value. -/
theorem exceptFmap_ok {α β : Type} (a : α) (f : α → β) :
    (f <$> (Except.ok a : Except String α)) = Except.ok (f a) := rfl

/-- Reduction of the functor map on an error value. -/
theorem exceptFmap_error {α β : Type} (e : String) (f : α → β) :
    (f <$> (Except.error e : Except String α)) = Except.error e := rfl

/-- Reduction of `pure` into the `Except` success constructor. -/
theorem exceptPure {α : Type} (a : α) : (pure a : Except String α) = Except.ok a := rfl

/-- One-step unfolding of `parseConstraintsLoop` on an empty token list. -/
theorem parseConstraintsLoop_nil (acc : List String) :
    parseConstraintsLoop [] acc = (acc, []) := by
  rw [parseConstraintsLoop]

/-- One-step unfolding of `parseConstraintsLoop` on a nonempty token list. -/
theorem parseConstraintsLoop_cons (t : Token) (rest : List Token) (acc : List String) :
    parseConstraintsLoop (t :: rest) acc
      = if t.value == "]" then (acc, t :: rest)
        else
          match rest with
          | [] => (acc ++ [t.value], [])
          | r :: rs =>
            if r.value == "," then parseConstraintsLoop rs (acc ++ [t.value])
            else parseConstraintsLoop (r :: rs) (acc ++ [t.value]) := by
  rw [parseConstraintsLoop.eq_def]

/-- The constraint loop only appends to the accumulator it is handed: its
result is the initial accumulator followed by the entries it collects, and
the final cursor does not depend on the accumulator. -/
theorem parseConstraintsLoop_acc_aux (n : Nat) : ∀ (ts : List Token), ts.length ≤ n → ∀ acc,
    parseConstraintsLoop ts acc
      = (acc ++ (parseConstraintsLoop ts []).1, (parseConstraintsLoop ts []).2) := by
  induction n with
  | zero =>
    intro ts h acc
    have hnil : ts = [] := List.length_eq_zero.mp (Nat.le_zero.mp h)
    subst hnil
    simp [parseConstraintsLoop_nil]
  | succ n ih =>
    intro ts h acc
    cases ts with
    | nil => simp [parseConstraintsLoop_nil]
    | cons t rest =>
      rw [parseConstraintsLoop_cons t rest acc, parseConstraintsLoop_cons t rest []]
      cases hv : t.value == "]" with
      | true => simp [hv]
      | false =>
        cases rest with
        | nil => simp [hv]
        | cons r rs =>
          cases hc : r.value == "," with
          | true =>
            have hlen : rs.length ≤ n := by
              simp at h
              omega
            simp only [hv, hc, Bool.false_eq_true, if_false, if_true]
            rw [ih rs hlen (acc ++ [t.value]), ih rs hlen ([] ++ [t.value])]
            simp
          | false =>
            have hlen : (r :: rs).length ≤ n := by
              simp at h ⊢
              omega
            simp only [hv, hc, Bool.false_eq_true, if_false]
            rw [ih (r :: rs) hlen (acc ++ [t.value]), ih (r :: rs) hlen ([] ++ [t.value])]
            simp

/-- Instance of `parseConstraintsLoop_acc_aux` at the list's own length. -/
theorem parseConstraintsLoop_acc (ts : List Token) (acc : List String) :
    parseConstraintsLoop ts acc
      = (acc ++ (parseConstraintsLoop ts []).1, (parseConstraintsLoop ts []).2) :=
  parseConstraintsLoop_acc_aux ts.length ts (Nat.le_refl _) acc

/-- When no token before the closing `]` has value `]`, the constraint loop
stops exactly at the closing bracket. -/
theorem parseConstraintsLoop_snd_no_rb_aux (n : Nat) : ∀ (bs : List Token), bs.length ≤ n →
    ∀ (post : List Token) (acc : List String), (∀ t ∈ bs, t.value ≠ "]") →
    (parseConstraintsLoop (bs ++ Token.mk .SYMBOL "]" :: post) acc).2
      = Token.mk .SYMBOL "]" :: post := by
  induction n with
  | zero =>
    intro bs h post acc hbs
    have hnil : bs = [] := List.length_eq_zero.mp (Nat.le_zero.mp h)
    subst hnil
    rw [List.nil_append, parseConstraintsLoop_cons]
    simp
  | succ n ih =>
    intro bs h post acc hbs
    cases bs with
    | nil =>
      rw [List.nil_append, parseConstraintsLoop_cons]
      simp
    | cons b bs' =>
      have hb : (b.value == "]") = false := by
        simpa using hbs b (List.mem_cons_self _ _)
      rw [List.cons_append, parseConstraintsLoop_cons]
      cases bs' with
      | nil =>
        rw [List.nil_append]
        simp only [hb, Bool.false_eq_true, if_false]
        rw [parseConstraintsLoop_cons]
        simp
      | cons b2 bs'' =>
        rw [List.cons_append]
        cases hc : b2.value == "," with
        | true =>
          have hlen : bs''.length ≤ n := by
            simp at h
            omega
          simp only [hb, hc, Bool.false_eq_true, if_false, if_true]
          exact ih bs'' hlen post _ (fun t ht => hbs t (by simp [ht]))
        | false =>
          have hlen : (b2 :: bs'').length ≤ n := by
            simp at h ⊢
            omega
          simp only [hb, hc, Bool.false_eq_true, if_false]
          rw [← List.cons_append]
          exact ih (b2 :: bs'') hlen post _ (fun t ht => hbs t (by simp at ht ⊢; tauto))

/-- Instance of `parseConstraintsLoop_snd_no_rb_aux` at the list's length. -/
theorem parseConstraintsLoop_snd_no_rb (bs post : List Token) (acc : List String)
    (hbs : ∀ t ∈ bs, t.value ≠ "]") :
    (parseConstraintsLoop (bs ++ Token.mk .SYMBOL "]" :: post) acc).2
      = Token.mk .SYMBOL "]" :: post :=
  parseConstraintsLoop_snd_no_rb_aux bs.length bs (Nat.le_refl _) post acc hbs

/-- `parseConstraints` appends its collected entries to the accumulator it
is handed; success, error message and final cursor are independent of the
accumulator. -/
theorem parseConstraints_acc (ts : List Token) (cons : List String) :
    parseConstraints ts cons
      = (parseConstraints ts []).map (fun p => (cons ++ p.1, p.2)) := by
  cases hex : expect .SYMBOL (some "[") ts with
  | error e =>
    simp [parseConstraints, hex, Except.map, exceptBind_error]
  | ok p =>
    obtain ⟨tok, ts1⟩ := p
    have hacc := parseConstraintsLoop_acc ts1 cons
    cases hX : parseConstraintsLoop ts1 [] with
    | mk A R =>
      rw [hX] at hacc
      cases hex2 : expect .SYMBOL (some "]") R with
      | error e =>
        simp [parseConstraints, hex, hX, hacc, hex2, Except.map, exceptBind_ok,
          exceptBind_error, exceptFmap_ok, exceptFmap_error]
      | ok q =>
        obtain ⟨tok2, ts2⟩ := q
        simp [parseConstraints, hex, hX, hacc, hex2, Except.map, exceptBind_ok,
          exceptBind_error, exceptFmap_ok, exceptFmap_error]

/-- The table-body loop threads its `constraints` accumulator through
without it influencing anything it returns apart from that same
accumulator: columns, note, success/error and final cursor agree for any
two accumulator values. -/
theorem parseTableBodyLoop_cons_irrel (fuel : Nat) :
    ∀ (ts : List Token) (cols : List ColumnNode) (note : Option String)
      (c1 c2 : List String),
    (parseTableBodyLoop fuel ts cols note c1).map (fun r => (r.1, r.2.1, r.2.2.2))
      = (parseTableBodyLoop fuel ts cols note c2).map (fun r => (r.1, r.2.1, r.2.2.2)) := by
  induction fuel with
  | zero =>
    intro ts cols note c1 c2
    rfl
  | succ fuel ih =>
    intro ts cols note c1 c2
    simp only [parseTableBodyLoop]
    cases hts : ts.head? with
    | none => rfl
    | some t =>
      cases hv : t.value == "\x7d" with
      | true => simp [hv, exceptMap_ok]
      | false =>
        simp only [hv, Bool.false_eq_true, if_false]
        cases hh : (skipWhitespace ts).head? with
        | none => rfl
        | some t1 =>
          by_cases h1 : t1.type = TokenType.IDENTIFIER
          · simp only [h1, if_true]
            cases hpc : parseColumn (skipWhitespace ts) with
            | error e => simp [exceptBind_error, exceptMap_error]
            | ok p =>
              obtain ⟨c, ts2⟩ := p
              simp only [exceptBind_ok]
              exact ih ts2 (cols ++ [c]) note c1 c2
          · simp only [h1, if_false]
            by_cases h2 : t1.type = TokenType.KEYWORD ∧ t1.value = "Note"
            · simp only [h2, if_true]
              cases hpn : parseNote (skipWhitespace ts) with
              | error e => simp [exceptBind_error, exceptMap_error]
              | ok p =>
                obtain ⟨n, ts2⟩ := p
                simp only [exceptBind_ok]
                exact ih ts2 cols (some n) c1 c2
            · simp only [h2, if_false]
              by_cases h3 : t1.type = TokenType.SYMBOL ∧ t1.value = "["
              · simp only [h3, if_true]
                rw [parseConstraints_acc (skipWhitespace ts) c1,
                  parseConstraints_acc (skipWhitespace ts) c2]
                cases hq : parseConstraints (skipWhitespace ts) [] with
                | error e => simp [exceptBind_error, exceptMap_error, Except.map]
                | ok p =>
                  obtain ⟨A, ts2⟩ := p
                  simp only [Except.map, exceptBind_ok]
                  exact ih ts2 cols note (c1 ++ A) (c2 ++ A)
              · simp only [h3, if_false]
                by_cases h4 : t1.value = "\x7d"
                · simp [h4, exceptMap_ok]
                · simp [h4]

/-- Evaluation of `expect` at a `Table` keyword head. -/
theorem expect_keyword_Table (rest : List Token) :
    expect .KEYWORD (some "Table") (Token.mk .KEYWORD "Table" :: rest)
      = .ok (Token.mk .KEYWORD "Table", rest) := rfl

/-- Evaluation of `expect` at an identifier behind one whitespace token. -/
theorem expect_identifier_ws (nm : String) (rest : List Token) :
    expect .IDENTIFIER none (Token.mk .WHITESPACE " " :: Token.mk .IDENTIFIER nm :: rest)
      = .ok (Token.mk .IDENTIFIER nm, rest) := rfl

/-- `skipWhitespace` does not move past a SYMBOL token. -/
theorem skipWhitespace_symbol (s : String) (rest : List Token) :
    skipWhitespace (Token.mk .SYMBOL s :: rest) = Token.mk .SYMBOL s :: rest := rfl

/-- `skipWhitespace` does not move past a KEYWORD token. -/
theorem skipWhitespace_keyword (s : String) (rest : List Token) :
    skipWhitespace (Token.mk .KEYWORD s :: rest) = Token.mk .KEYWORD s :: rest := rfl

/-- Evaluation of `expect` at an opening bracket head. -/
theorem expect_symbol_lb (rest : List Token) :
    expect .SYMBOL (some "[") (Token.mk .SYMBOL "[" :: rest)
      = .ok (Token.mk .SYMBOL "[", rest) := rfl

/-- Evaluation of `expect` at a closing bracket head. -/
theorem expect_symbol_rb (rest : List Token) :
    expect .SYMBOL (some "]") (Token.mk .SYMBOL "]" :: rest)
      = .ok (Token.mk .SYMBOL "]", rest) := rfl

/-- Evaluation of `expect` at an opening brace head. -/
theorem expect_symbol_lbrace (rest : List Token) :
    expect .SYMBOL (some "\x7b") (Token.mk .SYMBOL "\x7b" :: rest)
      = .ok (Token.mk .SYMBOL "\x7b", rest) := rfl

/-! ### Claim theorems -/

/-- C1: the claim says parsing `id string [not null, unique]` inside a table
body attaches `constraints = ["not","null","unique"]` to the Column node.
The code does not: `parseColumn` peeks for `[` without skipping the
whitespace token that follows the data type, so the bracket list is never
consumed by the column; the table-body loop then swallows it into the
discarded table-level accumulator, and the Column's constraints stay empty.
Even on the whitespace-free variant `id string[not null, unique]`, where
the column does consume the list, the loop pushes the raw value of every
token — whitespace runs included — so the entries are
`["not", " ", "null", " ", "unique"]`, never `["not","null","unique"]`.
This theorem evaluates the pipeline on both variants. -/
theorem C1_column_constraints_dropped :
    run "Table t \x7b id string [not null, unique] \x7d"
        = .ok ⟨[⟨"t", [⟨"id", "string", [], none⟩], none⟩]⟩
    ∧ run "Table t \x7b id string[not null, unique] \x7d"
        = .ok ⟨[⟨"t", [⟨"id", "string", ["not", " ", "null", " ", "unique"], none⟩], none⟩]⟩ := by
  constructor
  · rfl
  · rfl

/-- C2: the claim says every input conforming to the grammar sketch parses
successfully.  The input `Table t \x7b id int note : 'x' \x7d` conforms to the
sketch's column production `ident type-kw [ "note" ":" string ]`, yet the
pipeline rejects it: the Lexer's keyword list does not contain lowercase
`note`, so `note` lexes as an IDENTIFIER, the Parser's inline-note branch
(which demands a KEYWORD token) can never fire, and the body loop instead
starts a new column named `note` and fails expecting a KEYWORD data type at
`:`.  This theorem evaluates the pipeline at that failing input. -/
theorem C2_grammar_inline_note_rejected :
    run "Table t \x7b id int note : 'x' \x7d"
      = .error "Expected KEYWORD 'undefined', but got SYMBOL ':'" := by
  rfl

/-- C3 counterexample: the claim says the lexical error message identifies
the offending character and its position.  The two inputs `@` and ` @`
place the offending `@` at positions 0 and 1 respectively, yet produce the
very same error message, so the message cannot identify the position — the
source throws `Unexpected character: ${char}` with no position at all. -/
theorem C3_counterexample :
    lex "@" = .error "Unexpected character: @"
    ∧ lex " @" = .error "Unexpected character: @" := by
  constructor
  · rfl
  · rfl

/-- C3 (amended): when the scanner meets a character that is not
whitespace, not a letter, not a quote and not a structural character, it
fails immediately with a lexical error whose message identifies the
offending character (but not its position); no tokens are produced. -/
theorem C3_lex_error_names_character (c : Char) (cs : List Char)
    (h1 : isWhitespace c = false) (h2 : isLetter c = false)
    (h3 : (c == '\'' || c == '"') = false) (h4 : symbolChars.contains c = false) :
    lex (String.mk (c :: cs)) = .error ("Unexpected character: " ++ String.singleton c) := by
  have h4' : ¬ c ∈ symbolChars := by simpa using h4
  show tokenizeAux ((c :: cs).length + 1) (c :: cs) = _
  simp [tokenizeAux, h1, h2, h3, h4']

/-- C3 witness: the amended theorem applied at the concrete input `@a`. -/
theorem C3_lex_error_names_character_witness :
    lex (String.mk ['@', 'a']) = .error ("Unexpected character: " ++ String.singleton '@') :=
  C3_lex_error_names_character '@' ['a'] (by decide) (by decide) (by decide) (by decide)

/-- C4 counterexample: the claim says that on an exhausted token sequence
the error message contains the words "end of input".  The source instead
interpolates the JavaScript `undefined`, producing
`but got undefined 'undefined'`; the exact message is computed here and the
text "end of input" does not occur in it. -/
theorem C4_counterexample :
    expect .KEYWORD (some "Table") []
        = .error "Expected KEYWORD 'Table', but got undefined 'undefined'"
    ∧ ¬ ("end of input".toList <:+:
        "Expected KEYWORD 'Table', but got undefined 'undefined'".toList) := by
  constructor
  · rfl
  · decide

/-- C4 (amended): `expect(kind, literal?)` skips leading whitespace,
advances exactly one token, succeeds precisely when that token's kind
matches and the literal check passes (an absent literal — or, by JS
truthiness, an empty one — is not checked), and otherwise raises a syntax
error naming the expected kind/literal and the actual token, the token slots
reading `undefined 'undefined'` (not "end of input") when the sequence is
exhausted. -/
theorem C4_expect_contract (ty : TokenType) (v : Option String) (ts : List Token) :
    (skipWhitespace ts = [] → expect ty v ts = .error (expectMsg ty v none)) ∧
    (∀ t rest, skipWhitespace ts = t :: rest →
      (t.type = ty ∧ litOk v t = true → expect ty v ts = .ok (t, rest)) ∧
      (¬ (t.type = ty ∧ litOk v t = true) →
        expect ty v ts = .error (expectMsg ty v (some t)))) := by
  constructor
  · intro h
    simp [expect, h]
  · intro t rest h
    constructor
    · rintro ⟨hty, hlit⟩
      simp [expect, h, hty, hlit]
    · intro hn
      have hf : (t.type == ty && litOk v t) = false := by
        cases hb : (t.type == ty && litOk v t) with
        | false => rfl
        | true =>
          rcases (Bool.and_eq_true _ _).mp hb with ⟨hb1, hb2⟩
          exact absurd ⟨by simpa using hb1, hb2⟩ hn
      simp [expect, h, hf]

/-- C4 witness: the amended contract applied at a concrete token list with
one leading whitespace token and a matching `Table` keyword. -/
theorem C4_expect_contract_witness :
    expect .KEYWORD (some "Table") [Token.mk .WHITESPACE " ", Token.mk .KEYWORD "Table"]
      = .ok (Token.mk .KEYWORD "Table", []) :=
  ((C4_expect_contract .KEYWORD (some "Table")
      [Token.mk .WHITESPACE " ", Token.mk .KEYWORD "Table"]).2
    (Token.mk .KEYWORD "Table") [] rfl).1 ⟨rfl, rfl⟩

/-- C5: tokenizing and parsing `Table t \x7b id int \x7d` yields exactly one
table named `t` with one column `id` of data type `int`, empty constraints
and no notes. -/
theorem C5_single_column_roundtrip :
    run "Table t \x7b id int \x7d"
      = .ok ⟨[⟨"t", [⟨"id", "int", [], none⟩], none⟩]⟩ := by
  rfl

/-- C6: a bracketed constraint list between a table's name and its opening
brace is consumed but has no effect whatsoever on the returned node:
parsing with the header list present gives exactly the same result —
columns, note, name, success or failure — as parsing with the list deleted.
The `bs` hypothesis says the bracket group is well formed (no stray `]`
inside). -/
theorem C6_header_constraints_ignored (nm : String) (bs body : List Token)
    (hbs : ∀ t ∈ bs, t.value ≠ "]") :
    parseTable (Token.mk .KEYWORD "Table" :: Token.mk .WHITESPACE " " ::
        Token.mk .IDENTIFIER nm :: Token.mk .SYMBOL "[" ::
        (bs ++ Token.mk .SYMBOL "]" :: Token.mk .SYMBOL "\x7b" :: body))
      = parseTable (Token.mk .KEYWORD "Table" :: Token.mk .WHITESPACE " " ::
          Token.mk .IDENTIFIER nm :: Token.mk .SYMBOL "\x7b" :: body) := by
  cases hE : parseConstraintsLoop
      (bs ++ Token.mk .SYMBOL "]" :: Token.mk .SYMBOL "\x7b" :: body) [] with
  | mk A R =>
    have hR : R = Token.mk .SYMBOL "]" :: Token.mk .SYMBOL "\x7b" :: body := by
      have h := parseConstraintsLoop_snd_no_rb bs (Token.mk .SYMBOL "\x7b" :: body) [] hbs
      rw [hE] at h
      exact h
    subst hR
    have hcons : parseConstraints (Token.mk .SYMBOL "[" ::
        (bs ++ Token.mk .SYMBOL "]" :: Token.mk .SYMBOL "\x7b" :: body)) []
        = .ok (A, Token.mk .SYMBOL "\x7b" :: body) := by
      simp [parseConstraints, expect_symbol_lb, exceptBind_ok, hE, expect_symbol_rb]
    have hirr := parseTableBodyLoop_cons_irrel (body.length + 1) body [] none A []
    simp only [parseTable]
    rw [skipWhitespace_keyword, skipWhitespace_keyword]
    simp only [expect_keyword_Table, exceptBind_ok, expect_identifier_ws]
    simp only [skipWhitespace_symbol, List.head?_cons, Option.map_some']
    simp only [if_true]
    rw [if_neg (by decide : ¬ ((some "\x7b" : Option String) = some "["))]
    simp only [hcons, exceptBind_ok, exceptPure, expect_symbol_lbrace]
    cases hb1 : parseTableBodyLoop (body.length + 1) body [] none A with
    | error e =>
      rw [hb1] at hirr
      cases hb2 : parseTableBodyLoop (body.length + 1) body [] none [] with
      | error e2 =>
        rw [hb2] at hirr
        simp only [exceptMap_error] at hirr
        cases hirr
        simp [exceptBind_error]
      | ok r2 =>
        rw [hb2] at hirr
        simp only [exceptMap_error, exceptMap_ok] at hirr
        cases hirr
    | ok r =>
      obtain ⟨cols, note, consX, ts'⟩ := r
      rw [hb1] at hirr
      cases hb2 : parseTableBodyLoop (body.length + 1) body [] none [] with
      | error e2 =>
        rw [hb2] at hirr
        simp only [exceptMap_error, exceptMap_ok] at hirr
        cases hirr
      | ok r2 =>
        obtain ⟨cols2, note2, consY, ts2'⟩ := r2
        rw [hb2] at hirr
        simp only [exceptMap_ok, Except.ok.injEq, Prod.mk.injEq] at hirr
        obtain ⟨hc, hn, ht⟩ := hirr
        subst hc
        subst hn
        subst ht
        simp [exceptBind_ok]

/-- C6 witness: the theorem applied at a concrete header list `[not]` and a
body consisting of the closing brace. -/
theorem C6_header_constraints_ignored_witness :
    parseTable (Token.mk .KEYWORD "Table" :: Token.mk .WHITESPACE " " ::
        Token.mk .IDENTIFIER "t" :: Token.mk .SYMBOL "[" ::
        ([Token.mk .KEYWORD "not"] ++ Token.mk .SYMBOL "]" :: Token.mk .SYMBOL "\x7b" ::
          [Token.mk .SYMBOL "\x7d"]))
      = parseTable (Token.mk .KEYWORD "Table" :: Token.mk .WHITESPACE " " ::
          Token.mk .IDENTIFIER "t" :: Token.mk .SYMBOL "\x7b" :: [Token.mk .SYMBOL "\x7d"]) :=
  C6_header_constraints_ignored "t" [Token.mk .KEYWORD "not"] [Token.mk .SYMBOL "\x7d"]
    (by decide)

/-- C7: an opening quote whose matching quote never occurs again is not an
error: the whole remainder of the input becomes the StringLiteral's text
and tokenization ends normally. -/
theorem C7_unterminated_string (q : Char) (cs : List Char)
    (hq : q = '\'' ∨ q = '"') (hnt : ∀ c ∈ cs, c ≠ q) :
    lex (String.mk (q :: cs)) = .ok [⟨.STRING, cs.asString⟩] := by
  have htake : cs.takeWhile (fun x => x != q) = cs :=
    List.takeWhile_eq_self_iff.mpr (by intro x hx; simpa using hnt x hx)
  have hdrop : cs.dropWhile (fun x => x != q) = [] :=
    List.dropWhile_eq_nil_iff.mpr (by intro x hx; simpa using hnt x hx)
  show tokenizeAux ((q :: cs).length + 1) (q :: cs) = _
  rcases hq with hq | hq <;> subst hq
  · have hw : isWhitespace '\'' = false := by decide
    have hl : isLetter '\'' = false := by decide
    simp [tokenizeAux, hw, hl, htake, hdrop, Except.map]
  · have hw : isWhitespace '"' = false := by decide
    have hl : isLetter '"' = false := by decide
    simp [tokenizeAux, hw, hl, htake, hdrop, Except.map]

/-- C7 witness: the theorem applied at the unterminated input `'abc`. -/
theorem C7_unterminated_string_witness :
    lex (String.mk ('\'' :: ['a', 'b', 'c'])) = .ok [⟨.STRING, ['a', 'b', 'c'].asString⟩] :=
  C7_unterminated_string '\'' ['a', 'b', 'c'] (Or.inl rfl) (by decide)

/-- C8: a table body holding two Note members parses without a uniqueness
error and the returned note is the last one in source order, for every
table name and every pair of note strings. -/
theorem C8_note_overwrite (nm s1 s2 : String) :
    parse [⟨.KEYWORD, "Table"⟩, ⟨.WHITESPACE, " "⟩, ⟨.IDENTIFIER, nm⟩, ⟨.WHITESPACE, " "⟩,
           ⟨.SYMBOL, "\x7b"⟩, ⟨.WHITESPACE, " "⟩,
           ⟨.KEYWORD, "Note"⟩, ⟨.SYMBOL, ":"⟩, ⟨.WHITESPACE, " "⟩, ⟨.STRING, s1⟩,
           ⟨.WHITESPACE, " "⟩,
           ⟨.KEYWORD, "Note"⟩, ⟨.SYMBOL, ":"⟩, ⟨.WHITESPACE, " "⟩, ⟨.STRING, s2⟩,
           ⟨.WHITESPACE, " "⟩, ⟨.SYMBOL, "\x7d"⟩]
      = .ok ⟨[⟨nm, [], some s2⟩]⟩ := by
  rfl

/-- C9: tokenization is a pure function of the input text — the embedding
of a fresh `Lexer` run is deterministic, so two runs on the same input
yield element-for-element equal token sequences. -/
theorem C9_tokenize_deterministic (input : String) (ts₁ ts₂ : List Token)
    (h₁ : lex input = .ok ts₁) (h₂ : lex input = .ok ts₂) : ts₁ = ts₂ := by
  rw [h₁] at h₂
  exact Except.ok.inj h₂

/-- C9 witness: the theorem applied at the input `a`, both runs evaluated
by `rfl`. -/
theorem C9_tokenize_deterministic_witness :
    [Token.mk .IDENTIFIER "a"] = [Token.mk .IDENTIFIER "a"] :=
  C9_tokenize_deterministic "a" [Token.mk .IDENTIFIER "a"] [Token.mk .IDENTIFIER "a"] rfl rfl

/-- C10: every token the Lexer ever emits has one of the five kinds
KEYWORD, IDENTIFIER, STRING, SYMBOL or WHITESPACE — the declared NUMBER,
COMMENT and ERROR kinds are never produced — and a token starting with a
digit, as in `default: 1`, is a fatal lexical error rather than a Number
token. -/
theorem C10_token_kind_invariant :
    (∀ (fuel : Nat) (cs : List Char) (ts : List Token), tokenizeAux fuel cs = .ok ts →
      ∀ t ∈ ts, t.type = .KEYWORD ∨ t.type = .IDENTIFIER ∨ t.type = .STRING ∨
        t.type = .SYMBOL ∨ t.type = .WHITESPACE)
    ∧ lex "default: 1" = .error "Unexpected character: 1" := by
  constructor
  · intro fuel
    induction fuel with
    | zero =>
      intro cs ts h
      cases cs with
      | nil =>
        simp only [tokenizeAux] at h
        cases h
        simp
      | cons c cs' => simp [tokenizeAux] at h
    | succ fuel ih =>
      intro cs ts h
      cases cs with
      | nil =>
        simp only [tokenizeAux] at h
        cases h
        simp
      | cons c cs' =>
        simp only [tokenizeAux] at h
        split at h
        · cases hrec : tokenizeAux fuel ((c :: cs').dropWhile isWhitespace) with
          | error e => rw [hrec] at h; cases h
          | ok ts' =>
            rw [hrec] at h
            cases h
            intro t ht
            rcases List.mem_cons.mp ht with rfl | ht'
            · simp
            · exact ih _ _ hrec t ht'
        · split at h
          · cases hrec : tokenizeAux fuel ((c :: cs').dropWhile isIdentifierChar) with
            | error e => rw [hrec] at h; cases h
            | ok ts' =>
              rw [hrec] at h
              cases h
              intro t ht
              rcases List.mem_cons.mp ht with rfl | ht'
              · split <;> simp
              · exact ih _ _ hrec t ht'
          · split at h
            · cases hrec : tokenizeAux fuel ((cs'.dropWhile (fun x => x != c)).drop 1) with
              | error e => rw [hrec] at h; cases h
              | ok ts' =>
                rw [hrec] at h
                cases h
                intro t ht
                rcases List.mem_cons.mp ht with rfl | ht'
                · simp
                · exact ih _ _ hrec t ht'
            · split at h
              · cases hrec : tokenizeAux fuel cs' with
                | error e => rw [hrec] at h; cases h
                | ok ts' =>
                  rw [hrec] at h
                  cases h
                  intro t ht
                  rcases List.mem_cons.mp ht with rfl | ht'
                  · simp
                  · exact ih _ _ hrec t ht'
              · cases h
  · rfl

/-- C10 witness: the invariant applied to the one-token run on input `a`. -/
theorem C10_token_kind_invariant_witness :
    (Token.mk .IDENTIFIER "a").type = .KEYWORD ∨
      (Token.mk .IDENTIFIER "a").type = .IDENTIFIER ∨
      (Token.mk .IDENTIFIER "a").type = .STRING ∨
      (Token.mk .IDENTIFIER "a").type = .SYMBOL ∨
      (Token.mk .IDENTIFIER "a").type = .WHITESPACE :=
  C10_token_kind_invariant.1 2 ['a'] [Token.mk .IDENTIFIER "a"] rfl
    (Token.mk .IDENTIFIER "a") (by simp)

end DBAL
